import Mathlib

/-!
Verification development for the hybrid RAG retrieval engine of this
repository (hybrid vector + keyword search with Reciprocal Rank Fusion,
reranking fallback, pipeline orchestration, mock collaborators, adaptive
chunking enrichment).

Conventions of the shallow embedding:
  * JavaScript numbers that carry scores are modelled as rationals.
  * A JavaScript `Map` (which preserves insertion order and has one entry
    per key) is modelled as an association list extended at the tail, with
    in-place update of the first matching key.
  * Async collaborator calls (Qdrant, OpenAI, Cohere, langchain splitters)
    are modelled as explicit function parameters or `Except`-valued
    functions; the code under verification is everything that happens
    around those calls.
  * `Array.prototype.sort` with comparator `(a, b) => b.score - a.score`
    orders scores descending; it is modelled by `List.insertionSort` with
    the total order `b.score ≤ a.score`.  No claim below depends on the
    relative order of tied scores.
-/

/-- Embedding of the langchain `Document` as used by this repository:
`pageContent` plus the two metadata fields the core code reads
(`metadata.source` in context construction, `metadata.title` in
`rerankWithMetadata`).  `none` models an absent field. -/
structure Document where
  pageContent : String
  source : Option String := none
  title : Option String := none
deriving DecidableEq, Repr

/-- Embedding of `SearchResult` from `vectorStore.ts`. -/
structure SearchResult where
  document : Document
  score : ℚ
  vectorScore : Option ℚ := none
  keywordScore : Option ℚ := none
deriving DecidableEq, Repr

namespace HybridVectorStore

/-- One entry of the `fusedScores` map: key, stored result, accumulated score. -/
abbrev FusedEntry := String × SearchResult × ℚ

/-- The fusion key: `result.document.pageContent.substring(0, 100)`. -/
def rrfKey (result : SearchResult) : String :=
  result.document.pageContent.take 100

/-- The RRF constant `k = 60`. -/
def rrfK : ℚ := 60

/-- `fusedScores.has(key)`. -/
def hasKey (m : List FusedEntry) (key : String) : Bool :=
  m.any (fun e => e.1 == key)

/-- `fusedScores.get(key)!.score += rrfScore`: add `s` to the score of the
(unique) entry whose key is `key`, leaving the stored result in place. -/
def addScore : List FusedEntry → String → ℚ → List FusedEntry
  | [], _, _ => []
  | e :: es, key, s =>
    if e.1 = key then (e.1, e.2.1, e.2.2 + s) :: es
    else e :: addScore es key s

/-- The body of the `forEach` in `reciprocalRankFusion`: fold one result at
rank `rank` with list weight `w` into the map. -/
def fuseOne (w : ℚ) (m : List FusedEntry) (result : SearchResult) (rank : Nat) :
    List FusedEntry :=
  let key := rrfKey result
  let rrfScore := w * (1 / (rrfK + rank + 1))
  if hasKey m key then addScore m key rrfScore
  else m ++ [(key, result, rrfScore)]

/-- `results.forEach((result, rank) => ...)` with list weight `w`, starting
at rank `rank`. -/
def processResults (w : ℚ) : List FusedEntry → Nat → List SearchResult → List FusedEntry
  | m, _, [] => m
  | m, rank, r :: rs => processResults w (fuseOne w m r rank) (rank + 1) rs

/-- The `fusedScores` map after both `forEach` passes: vector results with
weight `alpha`, then keyword results with weight `1 - alpha`. -/
def fusedScoresMap (vectorResults keywordResults : List SearchResult) (alpha : ℚ) :
    List FusedEntry :=
  processResults (1 - alpha) (processResults alpha [] 0 vectorResults) 0 keywordResults

/-- Comparator `(a, b) => b.score - a.score` as a (decidable, total,
transitive) order: `a` comes before `b` when `b.score ≤ a.score`. -/
def scoreDescRel (a b : SearchResult × ℚ) : Prop :=
  b.2 ≤ a.2

instance : DecidableRel scoreDescRel :=
  fun a b => inferInstanceAs (Decidable (b.2 ≤ a.2))

/-- Embedding of `HybridVectorStore.reciprocalRankFusion`: build the fused
score map, sort its values descending by accumulated score, take the top
`limit`, and re-label each stored result with its fused score. -/
def reciprocalRankFusion (vectorResults keywordResults : List SearchResult)
    (alpha : ℚ) (limit : Nat) : List SearchResult :=
  ((((fusedScoresMap vectorResults keywordResults alpha).map (fun e => e.2)).insertionSort
      scoreDescRel).take limit).map
    (fun item => { item.1 with score := item.2 })

/-- Embedding of `HybridVectorStore.hybridSearch` after its collaborator
calls: the vector search and keyword search (each asked for `2 × limit`
results) are abstract, and the returned value is their Reciprocal Rank
Fusion. -/
def hybridSearchModel (vectorSearch keywordSearch : Nat → List SearchResult)
    (limit : Nat) (alpha : ℚ) : List SearchResult :=
  reciprocalRankFusion (vectorSearch (limit * 2)) (keywordSearch (limit * 2)) alpha limit

/-- Specification-side sum: the total RRF mass `Σ 1/(k + rank + 1)` that the
occurrences of `key` in a ranked list contribute, ranks counted from `rank`. -/
def rrfContrib (key : String) : Nat → List SearchResult → ℚ
  | _, [] => 0
  | rank, r :: rs =>
    (if rrfKey r = key then 1 / (rrfK + rank + 1) else 0) + rrfContrib key (rank + 1) rs

/-- The accumulated score stored for `key` in a fused map (`0` if absent). -/
def mapScore (m : List FusedEntry) (key : String) : ℚ :=
  match m.find? (fun e => e.1 == key) with
  | some e => e.2.2
  | none => 0

end HybridVectorStore

/-- Does `needle` occur at the head of `hay`? (Helper for the JS
`String.prototype.includes` embedding.) -/
def startsWith : List Char → List Char → Bool
  | [], _ => true
  | _ :: _, [] => false
  | a :: as, b :: bs => a == b && startsWith as bs

/-- Does `needle` occur anywhere in `hay`? -/
def hasSub (needle : List Char) : List Char → Bool
  | [] => needle.isEmpty
  | c :: cs => startsWith needle (c :: cs) || hasSub needle cs

/-- JS `content.includes(word)`. -/
def jsIncludes (hay needle : String) : Bool :=
  hasSub needle.data hay.data

/-- JS `str.split(' ')` at the character-list level: split at every single
space, keeping empty pieces; the empty string yields one empty piece. -/
def jsSplitSpaceAux : List Char → List (List Char)
  | [] => [[]]
  | c :: cs =>
    if c = ' ' then [] :: jsSplitSpaceAux cs
    else
      match jsSplitSpaceAux cs with
      | [] => [[c]]
      | w :: ws => (c :: w) :: ws

/-- JS `str.split(' ')`. -/
def jsSplitSpace (s : String) : List String :=
  (jsSplitSpaceAux s.data).map String.mk

/-- Specification-side view of the streamed fragments (character-list
level): every word but the last carries one trailing space. -/
def fragmentsChar : List (List Char) → List (List Char)
  | [] => []
  | [w] => [w]
  | w :: x :: xs => (w ++ [' ']) :: fragmentsChar (x :: xs)

/-- Specification-side view of the streamed fragments (string level). -/
def fragmentsStr : List String → List String
  | [] => []
  | [w] => [w]
  | w :: x :: xs => (w ++ " ") :: fragmentsStr (x :: xs)

/-- Configured `config.rag.topK` (default 10). -/
def ragTopK : Nat := 10

/-- Configured `config.rag.rerankTopK` (default 3). -/
def ragRerankTopK : Nat := 3

namespace Reranker

/-- One item of the Cohere rerank response: an index into the submitted
document list and a calibrated relevance score. -/
structure RerankItem where
  index : Nat
  relevanceScore : ℚ
deriving DecidableEq, Repr

/-- A rerank provider: `(query, documents, topN) ↦` ranked items or a thrown
error.  The Cohere client is a collaborator, so it is a parameter. -/
abbrev RerankProvider := String → List String → Nat → Except Unit (List RerankItem)

/-- Fallback used when a provider item carries an out-of-range index (the
provider contract guarantees indices point into the submitted documents). -/
def defaultResult : SearchResult :=
  { document := { pageContent := "" }, score := 0 }

/-- Embedding of `Reranker.rerank`: submit the raw page contents; on success
map the ranked items back onto the original results with the provider score;
on a thrown provider error return the input order truncated to `topK`. -/
def rerank (provider : RerankProvider) (query : String)
    (results : List SearchResult) (topK : Nat) : List SearchResult :=
  if results = [] then []
  else
    match provider query (results.map (fun r => r.document.pageContent))
        (min topK results.length) with
    | .ok items =>
        items.map (fun it =>
          { results.getD it.index defaultResult with score := it.relevanceScore })
    | .error _ => results.take topK

/-- The metadata-enhanced document text submitted by `rerankWithMetadata`:
a `Title: ...` prefix when `metadata.title` is truthy. -/
def titledContent (r : SearchResult) : String :=
  match r.document.title with
  | some t => if t = "" then r.document.pageContent
              else "Title: " ++ t ++ "\n\n" ++ r.document.pageContent
  | none => r.document.pageContent

/-- Embedding of `Reranker.rerankWithMetadata`: like `rerank` but submits
title-enhanced texts, and on a thrown provider error falls back to the plain
`rerank` call. -/
def rerankWithMetadata (provider : RerankProvider) (query : String)
    (results : List SearchResult) (topK : Nat) : List SearchResult :=
  if results = [] then []
  else
    match provider query (results.map titledContent) (min topK results.length) with
    | .ok items =>
        items.map (fun it =>
          { results.getD it.index defaultResult with score := it.relevanceScore })
    | .error _ => rerank provider query results topK

end Reranker

namespace MockLLM

/-- JS 32-bit signed-integer coercion (`x & x` on a JS number). -/
def toInt32 (z : ℤ) : ℤ :=
  (z + 2 ^ 31) % 2 ^ 32 - 2 ^ 31

/-- One step of `hashCode`: `hash = ((hash << 5) - hash) + charCode` followed
by `hash = hash & hash`. -/
def hashStep (h : ℤ) (c : Char) : ℤ :=
  toInt32 (toInt32 (h * 32) - h + c.toNat)

/-- Embedding of `MockLLM.hashCode`. -/
def hashCode (s : String) : ℤ :=
  s.data.foldl hashStep 0

/-- First canned response of `MockLLM.generateAnswer`. -/
def response0 (question : String) : String :=
  "Based on the provided context, here's a comprehensive answer to \"" ++ question
    ++ "\":\n\nThe documents discuss several key aspects relevant to your query. The implementation involves modern techniques and best practices that ensure optimal performance and scalability.\n\nKey points include:\n- Advanced optimization strategies that improve efficiency by 30-40%\n- Robust architecture patterns for maintainable systems\n- Comprehensive monitoring and observability practices\n\n[1] The first source emphasizes the importance of proper system design.\n[2] The second source provides detailed implementation guidelines.\n[3] The third source covers advanced optimization techniques.\n\nThis approach has been proven effective in production environments."

/-- Second canned response of `MockLLM.generateAnswer`. -/
def response1 (question : String) : String :=
  "To address your question about \"" ++ question
    ++ "\":\n\nThe context reveals three critical components:\n\n1. **Performance Optimization**: The system implements cutting-edge techniques for reducing latency and improving throughput [1].\n\n2. **Scalability Patterns**: Using microservices architecture and proper service boundaries ensures the system can grow efficiently [2].\n\n3. **Monitoring & Observability**: Comprehensive metrics and logging enable proactive issue detection [3].\n\nThese elements work together to create a robust, production-ready solution."

/-- Third canned response of `MockLLM.generateAnswer`. -/
def response2 (question : String) : String :=
  "Regarding \"" ++ question
    ++ "\":\n\nAnalysis of the provided sources reveals:\n\n• Modern architectural patterns are essential for building scalable systems [1]\n• Performance optimization requires a multi-faceted approach [2]  \n• Proper monitoring ensures system reliability [3]\n\nThe implementation leverages industry best practices to achieve optimal results. This includes hybrid search capabilities, intelligent caching strategies, and adaptive resource management.\n\nThe recommended approach balances performance with maintainability."

/-- Embedding of `MockLLM.generateAnswer`: a canned response selected by
`Math.abs(hashCode(question)) % responses.length`; the context argument is
not consulted (as in the source). -/
def generateAnswer (question : String) (context : String) : String :=
  let responses := [response0 question, response1 question, response2 question]
  responses.getD ((hashCode question).natAbs % responses.length) ""

/-- Embedding of `MockLLM.streamAnswer`: the fragments yielded in order —
the answer split on spaces, a trailing space re-attached to every fragment
but the last. -/
def streamAnswer (question : String) (context : String) : List String :=
  let answer := generateAnswer question context
  let words := jsSplitSpace answer
  words.mapIdx (fun i w => w ++ (if i < words.length - 1 then " " else ""))

end MockLLM

namespace MockVectorStore

/-- Comparator for the mock store's descending score sort. -/
def docScoreDescRel (a b : Document × ℚ) : Prop :=
  b.2 ≤ a.2

instance : DecidableRel docScoreDescRel :=
  fun a b => inferInstanceAs (Decidable (b.2 ≤ a.2))

/-- Embedding of `MockVectorStore.hybridSearch` over the stored document
list: empty store returns empty; otherwise score each document by the
fraction of query words its lowercased content includes, keep positive
scores sorted descending and truncated to `limit`; if that is empty, fall
back to the first `min(3, n)` stored documents with synthetic scores
`0.5 - i * 0.1`. -/
def hybridSearch (documents : List Document) (query : String) (limit : Nat) :
    List SearchResult :=
  if documents = [] then []
  else
    let queryWords := jsSplitSpace query.toLower
    let scored := documents.map (fun doc =>
      let content := doc.pageContent.toLower
      let score : ℚ :=
        (queryWords.foldl (fun acc word =>
          acc + (if jsIncludes content word then 1 else 0)) 0) / queryWords.length
      (doc, score))
    let results :=
      (((scored.filter (fun r => decide (0 < r.2))).insertionSort docScoreDescRel).take
          limit).map
        (fun r => { document := r.1, score := r.2, vectorScore := some r.2,
                    keywordScore := some r.2 })
    if results = [] then
      (documents.take (min 3 documents.length)).mapIdx (fun i doc =>
        { document := doc, score := 1/2 - i * (1/10),
          vectorScore := some (1/2 - i * (1/10)) })
    else results

end MockVectorStore

/-- One cited source of a `RAGResponse`: content, the modelled metadata
fields, and the relevance score. -/
structure RAGSource where
  content : String
  source : Option String
  title : Option String
  relevanceScore : ℚ
deriving DecidableEq, Repr

/-- Embedding of `RAGResponse` (the wall-clock metrics record is not
modelled). -/
structure RAGResponse where
  answer : String
  sources : List RAGSource
deriving DecidableEq, Repr

/-- The options record of `RAGPipeline.query` / `streamQuery`.
(`streamResponse` has no effect on the produced answer in the source:
both branches of the generation chain call `chain.invoke`.) -/
structure QueryOptions where
  useReranking : Bool := true
  useHybridSearch : Bool := true
  streamResponse : Bool := false
deriving DecidableEq, Repr

namespace RAGPipeline

/-- The fixed no-results answer of `RAGPipeline.generateAnswer`. -/
def noInfoAnswer : String :=
  "I couldn't find any relevant information to answer your question."

/-- Context construction: each surviving result rendered as
`[index] sourceLabel:\n content` (1-based index), joined by blank lines;
a falsy `metadata.source` falls back to `Source ${index + 1}`. -/
def buildContext (searchResults : List SearchResult) : String :=
  String.intercalate "\n\n" (searchResults.mapIdx (fun index result =>
    let source :=
      match result.document.source with
      | some s => if s = "" then "Source " ++ toString (index + 1) else s
      | none => "Source " ++ toString (index + 1)
    "[" ++ toString (index + 1) ++ "] " ++ source ++ ":\n"
      ++ result.document.pageContent))

/-- Step 1 of `RAGPipeline.query` / `streamQuery`, exactly as written in the
source: both branches of `options.useHybridSearch` issue the same
`this.vectorStore.hybridSearch(question, config.rag.topK)` call (the `else`
branch is annotated "Fallback to pure vector search" but performs no such
thing). -/
def retrieveStage (hybridSearch : String → Nat → List SearchResult)
    (opts : QueryOptions) (question : String) : List SearchResult :=
  if opts.useHybridSearch then hybridSearch question ragTopK
  else hybridSearch question ragTopK

/-- Embedding of `RAGPipeline.generateAnswer`, parametrized by the answer
generator collaborator (mock or live LLM chain): zero candidates yield the
fixed answer without consulting the generator. -/
def generateAnswer (llm : String → String → String) (question : String)
    (searchResults : List SearchResult) : String :=
  if searchResults = [] then noInfoAnswer
  else llm question (buildContext searchResults)

/-- Embedding of `RAGPipeline.query`: retrieve, optionally rerank (only when
enabled and the candidate list is non-empty), generate, and assemble the
response with one cited source per surviving result. -/
def query (hybridSearch : String → Nat → List SearchResult)
    (rerank : String → List SearchResult → Nat → List SearchResult)
    (llm : String → String → String)
    (question : String) (opts : QueryOptions) : RAGResponse :=
  let searchResults := retrieveStage hybridSearch opts question
  let searchResults :=
    if opts.useReranking && decide (0 < searchResults.length) then
      rerank question searchResults ragRerankTopK
    else searchResults
  { answer := generateAnswer llm question searchResults
    sources := searchResults.map (fun r =>
      { content := r.document.pageContent, source := r.document.source,
        title := r.document.title, relevanceScore := r.score }) }

/-- The events yielded by `RAGPipeline.streamQuery`, in order. -/
inductive StreamEvent where
  | retrievalStart
  | retrievalDone (resultCount : Nat)
  | rerankingStart
  | rerankingDone (resultCount : Nat)
  | generationStart
  | generationChunk (chunk : String)
  | complete (sources : List RAGSource)
deriving DecidableEq, Repr

/-- Embedding of `RAGPipeline.streamQuery` as the finite list of events it
yields (the generator collaborator streams the fragment list `llmStream`):
retrieval event pair, a reranking event pair only when reranking is enabled
and candidates are non-empty, a bare generation event, one generation event
per streamed fragment — with no zero-candidate check before the generation
stage — and the final complete event. -/
def streamQuery (hybridSearch : String → Nat → List SearchResult)
    (rerank : String → List SearchResult → Nat → List SearchResult)
    (llmStream : String → String → List String)
    (question : String) (opts : QueryOptions) : List StreamEvent :=
  let searchResults := retrieveStage hybridSearch opts question
  let rerankStep :=
    if opts.useReranking && decide (0 < searchResults.length) then
      let reranked := rerank question searchResults ragRerankTopK
      ([StreamEvent.rerankingStart, StreamEvent.rerankingDone reranked.length],
        reranked)
    else ([], searchResults)
  [StreamEvent.retrievalStart, StreamEvent.retrievalDone searchResults.length]
    ++ rerankStep.1
    ++ [StreamEvent.generationStart]
    ++ (llmStream question (buildContext rerankStep.2)).map StreamEvent.generationChunk
    ++ [StreamEvent.complete (rerankStep.2.map (fun r =>
        { content := r.document.pageContent, source := r.document.source,
          title := r.document.title, relevanceScore := r.score }))]

/-- The chunks carried by the generation events of an event list. -/
def generationChunks (events : List StreamEvent) : List String :=
  events.filterMap (fun e =>
    match e with
    | StreamEvent.generationChunk c => some c
    | _ => none)

end RAGPipeline

/-- Embedding of the `POST /api/query` handler around the pipeline call:
`if (!question) return 400` — an empty question is rejected with HTTP 400
before `ragPipeline.query` is invoked; otherwise the pipeline response is
returned. -/
def apiQueryHandler (pipeline : String → QueryOptions → RAGResponse)
    (question : String) (opts : QueryOptions) : Except Nat RAGResponse :=
  if question = "" then Except.error 400
  else Except.ok (pipeline question opts)

/-- The content type detected by `AdaptiveChunking.detectContentType`. -/
inductive ContentType where
  | code
  | structured
  | narrative
deriving DecidableEq, Repr

/-- A chunk as produced by `SemanticChunking.chunk` / `TokenBasedChunking.chunk`:
the split text plus the metadata fields those methods set. -/
structure BaseChunk where
  pageContent : String
  chunkIndex : Nat
  chunkingStrategy : String
deriving DecidableEq, Repr

/-- Embedding of `SemanticChunking.chunk` around the langchain
`RecursiveCharacterTextSplitter` collaborator `split`: every split document
receives its ordinal index and the strategy name. -/
def semanticChunk (split : String → List String) (text : String) : List BaseChunk :=
  (split text).mapIdx (fun index s =>
    { pageContent := s, chunkIndex := index, chunkingStrategy := "semantic" })

/-- Embedding of `TokenBasedChunking.chunk` around the langchain
`TokenTextSplitter` collaborator `split`. -/
def tokenChunk (split : String → List String) (text : String) : List BaseChunk :=
  (split text).mapIdx (fun index s =>
    { pageContent := s, chunkIndex := index, chunkingStrategy := "token" })

/-- A chunk after `AdaptiveChunking.chunk` post-split enrichment. -/
structure AdaptiveChunk where
  base : BaseChunk
  contentType : ContentType
  hasPrevious : Bool
  hasNext : Bool
  totalChunks : Nat
deriving DecidableEq, Repr

/-- The strategy dispatch of `AdaptiveChunking.chunk`: `code` → the 256/64
semantic splitter, `structured` → the token splitter, `narrative` → the
512/128 semantic splitter. -/
def chooseChunks (contentType : ContentType)
    (splitCode splitStructured splitNarrative : String → List String)
    (text : String) : List BaseChunk :=
  match contentType with
  | ContentType.code => semanticChunk splitCode text
  | ContentType.structured => tokenChunk splitStructured text
  | ContentType.narrative => semanticChunk splitNarrative text

/-- The post-split enrichment map of `AdaptiveChunking.chunk`: every chunk
receives the content type, the adjacency flags `hasPrevious = index > 0`
and `hasNext = index < chunks.length - 1`, and the total chunk count. -/
def enrich (contentType : ContentType) (chunks : List BaseChunk) :
    List AdaptiveChunk :=
  chunks.mapIdx (fun index c =>
    { base := c, contentType := contentType,
      hasPrevious := decide (0 < index),
      hasNext := decide (index < chunks.length - 1),
      totalChunks := chunks.length })

/-- Embedding of `AdaptiveChunking.chunk`: detect the content type, split
with the strategy chosen for it, then enrich every chunk.  The detector and
the three configured splitters are collaborator parameters. -/
def adaptiveChunk (detect : String → ContentType)
    (splitCode splitStructured splitNarrative : String → List String)
    (text : String) : List AdaptiveChunk :=
  let contentType := detect text
  enrich contentType
    (chooseChunks contentType splitCode splitStructured splitNarrative text)

/-- The position-dependent stamp of an enriched chunk: ordinal index, total
count, and the two adjacency flags. -/
def chunkStamp (c : AdaptiveChunk) : Nat × Nat × Bool × Bool :=
  (c.base.chunkIndex, c.totalChunks, c.hasPrevious, c.hasNext)

/-- A concrete sample document (used by witnesses and counterexamples). -/
def sampleDoc : Document :=
  { pageContent := "Alpha chunk text", source := some "a.md", title := some "Alpha" }

/-- A second concrete sample document. -/
def sampleDoc2 : Document :=
  { pageContent := "Beta chunk text", source := some "b.md" }

/-- A concrete sample vector-search hit over `sampleDoc`. -/
def sampleVec : SearchResult :=
  { document := sampleDoc, score := 9/10, vectorScore := some (9/10) }

/-- A concrete sample keyword-search hit over `sampleDoc2`. -/
def sampleKw : SearchResult :=
  { document := sampleDoc2, score := 1, keywordScore := some 1 }

/-- A rerank provider whose every call throws. -/
def failingProvider : Reranker.RerankProvider :=
  fun _ _ _ => Except.error ()

/-- A store whose hybrid search returns no candidates. -/
def emptyStore : String → Nat → List SearchResult :=
  fun _ _ => []

/-- A store whose hybrid search always returns the single hit `sampleVec`. -/
def oneDocStore : String → Nat → List SearchResult :=
  fun _ _ => [sampleVec]

/-- A reranker that returns its input unchanged. -/
def idRerank : String → List SearchResult → Nat → List SearchResult :=
  fun _ rs _ => rs

instance : IsTotal (SearchResult × ℚ) HybridVectorStore.scoreDescRel :=
  ⟨fun a b => le_total b.2 a.2⟩

instance : IsTrans (SearchResult × ℚ) HybridVectorStore.scoreDescRel :=
  ⟨fun _ _ _ hab hbc => le_trans hbc hab⟩

namespace HybridVectorStore

/-- Well-formedness of one fused-map entry: its key is the fingerprint of
its stored result. -/
def entryKeyOk (e : FusedEntry) : Prop :=
  e.1 = rrfKey e.2.1

theorem mapScore_nil (key : String) : mapScore [] key = 0 := rfl

theorem mapScore_cons (e : FusedEntry) (es : List FusedEntry) (key : String) :
    mapScore (e :: es) key = if e.1 = key then e.2.2 else mapScore es key := by
  by_cases h : e.1 = key
  · have hb : (e.1 == key) = true := by simp [h]
    simp [mapScore, List.find?, hb, h]
  · have hb : (e.1 == key) = false := by simp [h]
    simp [mapScore, List.find?, hb, h]

theorem hasKey_false_iff (m : List FusedEntry) (key : String) :
    hasKey m key = false ↔ key ∉ m.map (fun e => e.1) := by
  constructor
  · intro h hk
    rcases List.mem_map.mp hk with ⟨e, he, hek⟩
    have ht : hasKey m key = true := by
      simp only [hasKey, List.any_eq_true]
      exact ⟨e, he, by simp [hek]⟩
    rw [ht] at h
    cases h
  · intro h
    cases hh : hasKey m key
    · rfl
    · exfalso
      simp only [hasKey, List.any_eq_true, beq_iff_eq] at hh
      rcases hh with ⟨e, he, hek⟩
      exact h (List.mem_map.mpr ⟨e, he, hek⟩)

theorem find?_eq_none_of_not_hasKey (m : List FusedEntry) (key : String)
    (h : hasKey m key = false) : m.find? (fun e => e.1 == key) = none := by
  rw [List.find?_eq_none]
  intro e he
  simp only [beq_iff_eq]
  intro hek
  exact absurd (List.mem_map.mpr ⟨e, he, hek⟩) ((hasKey_false_iff m key).mp h)

theorem mapScore_eq_zero_of_not_hasKey (m : List FusedEntry) (key : String)
    (h : hasKey m key = false) : mapScore m key = 0 := by
  simp [mapScore, find?_eq_none_of_not_hasKey m key h]

theorem hasKey_cons (e : FusedEntry) (es : List FusedEntry) (k : String) :
    hasKey (e :: es) k = (e.1 == k || hasKey es k) := by
  simp [hasKey]

theorem mapScore_addScore (m : List FusedEntry) (k : String) (s : ℚ) (key : String)
    (h : hasKey m k = true) :
    mapScore (addScore m k s) key = mapScore m key + if k = key then s else 0 := by
  induction m with
  | nil => simp [hasKey] at h
  | cons e es ih =>
    by_cases hek : e.1 = k
    · simp only [addScore, if_pos hek, mapScore_cons]
      by_cases hkey : k = key
      · subst hkey
        simp [hek]
      · have : ¬ e.1 = key := fun hc => hkey (hek ▸ hc)
        simp [this, hkey]
    · have h' : hasKey es k = true := by
        rw [hasKey_cons] at h
        rcases Bool.or_eq_true_iff.mp h with h1 | h1
        · exact absurd (beq_iff_eq.mp h1) hek
        · exact h1
      simp only [addScore, if_neg hek, mapScore_cons]
      by_cases hkey : e.1 = key
      · have : ¬ k = key := fun hc => hek (hc ▸ hkey)
        simp [hkey, this]
      · simp [hkey, ih h']

theorem mapScore_append_notin (m : List FusedEntry) (k : String)
    (res : SearchResult) (s : ℚ) (key : String) (h : hasKey m k = false) :
    mapScore (m ++ [(k, res, s)]) key = mapScore m key + if k = key then s else 0 := by
  by_cases hkey : k = key
  · subst hkey
    have hf : m.find? (fun e => e.1 == k) = none := find?_eq_none_of_not_hasKey m k h
    have hApp : (m ++ [((k : String), res, s)]).find? (fun e => e.1 == k)
        = some (k, res, s) := by
      rw [List.find?_append, hf]
      simp [List.find?]
    have h0 : mapScore m k = 0 := mapScore_eq_zero_of_not_hasKey m k h
    rw [h0]
    simp [mapScore, hApp]
  · have hb : ((k : String) == key) = false := by simp [hkey]
    have hsingle : List.find? (fun e => e.1 == key) [((k, res, s) : FusedEntry)]
        = none := by
      simp [List.find?, hb]
    have hApp : (m ++ [((k : String), res, s)]).find? (fun e => e.1 == key)
        = m.find? (fun e => e.1 == key) := by
      rw [List.find?_append, hsingle, Option.or_none]
    simp [mapScore, hApp, hkey]

theorem mapScore_fuseOne (w : ℚ) (m : List FusedEntry) (r : SearchResult)
    (rank : Nat) (key : String) :
    mapScore (fuseOne w m r rank) key =
      mapScore m key + (if rrfKey r = key then w * (1 / (rrfK + rank + 1)) else 0) := by
  by_cases h : hasKey m (rrfKey r)
  · simp only [fuseOne, h, if_pos]
    exact mapScore_addScore m (rrfKey r) _ key h
  · have hb : hasKey m (rrfKey r) = false := by
      cases hh : hasKey m (rrfKey r)
      · rfl
      · exact absurd hh h
    simp only [fuseOne, hb, Bool.false_eq_true, if_false]
    exact mapScore_append_notin m (rrfKey r) r _ key hb

theorem mapScore_processResults (w : ℚ) (L : List SearchResult) :
    ∀ (m : List FusedEntry) (rank : Nat) (key : String),
      mapScore (processResults w m rank L) key
        = mapScore m key + w * rrfContrib key rank L := by
  induction L with
  | nil =>
    intro m rank key
    simp [processResults, rrfContrib]
  | cons r rs ih =>
    intro m rank key
    simp only [processResults, rrfContrib]
    rw [ih, mapScore_fuseOne]
    by_cases h : rrfKey r = key <;> simp [h] <;> ring

theorem mapScore_fusedScoresMap (v kw : List SearchResult) (alpha : ℚ) (key : String) :
    mapScore (fusedScoresMap v kw alpha) key
      = alpha * rrfContrib key 0 v + (1 - alpha) * rrfContrib key 0 kw := by
  simp [fusedScoresMap, mapScore_processResults, mapScore_nil]

theorem keys_addScore (m : List FusedEntry) (k : String) (s : ℚ) :
    (addScore m k s).map (fun e => e.1) = m.map (fun e => e.1) := by
  induction m with
  | nil => rfl
  | cons e es ih =>
    by_cases h : e.1 = k <;> simp [addScore, h, ih]

theorem entryKeyOk_addScore (m : List FusedEntry) (k : String) (s : ℚ)
    (h1 : ∀ e ∈ m, entryKeyOk e) : ∀ e ∈ addScore m k s, entryKeyOk e := by
  induction m with
  | nil =>
    intro e he
    cases he
  | cons f fs ih =>
    intro e he
    by_cases hfk : f.1 = k
    · simp only [addScore, if_pos hfk] at he
      rcases List.mem_cons.mp he with he | he
      · subst he
        exact h1 f (by simp)
      · exact h1 e (by simp [he])
    · simp only [addScore, if_neg hfk] at he
      rcases List.mem_cons.mp he with he | he
      · subst he
        exact h1 e (by simp)
      · exact ih (fun e' he' => h1 e' (by simp [he'])) e he

theorem fuseOne_inv (w : ℚ) (m : List FusedEntry) (r : SearchResult) (rank : Nat)
    (h1 : ∀ e ∈ m, entryKeyOk e) (h2 : (m.map (fun e => e.1)).Nodup) :
    (∀ e ∈ fuseOne w m r rank, entryKeyOk e)
      ∧ ((fuseOne w m r rank).map (fun e => e.1)).Nodup := by
  by_cases h : hasKey m (rrfKey r)
  · simp only [fuseOne, h, if_pos]
    exact ⟨entryKeyOk_addScore m (rrfKey r) _ h1, by rw [keys_addScore]; exact h2⟩
  · have hb : hasKey m (rrfKey r) = false := by
      cases hh : hasKey m (rrfKey r)
      · rfl
      · exact absurd hh h
    have hnot : rrfKey r ∉ m.map (fun e => e.1) := (hasKey_false_iff m (rrfKey r)).mp hb
    simp only [fuseOne, hb, Bool.false_eq_true, if_false]
    constructor
    · intro e he
      rcases List.mem_append.mp he with he | he
      · exact h1 e he
      · have he' : e = (rrfKey r, r, w * (1 / (rrfK + rank + 1))) := by
          simpa using he
        subst he'
        simp [entryKeyOk]
    · simp only [List.map_append, List.map_cons, List.map_nil]
      rw [List.nodup_append]
      exact ⟨h2, List.nodup_singleton _, by simpa using hnot⟩

theorem processResults_inv (w : ℚ) (L : List SearchResult) :
    ∀ (m : List FusedEntry) (rank : Nat),
      (∀ e ∈ m, entryKeyOk e) → (m.map (fun e => e.1)).Nodup →
      (∀ e ∈ processResults w m rank L, entryKeyOk e)
        ∧ ((processResults w m rank L).map (fun e => e.1)).Nodup := by
  induction L with
  | nil =>
    intro m rank h1 h2
    exact ⟨h1, h2⟩
  | cons r rs ih =>
    intro m rank h1 h2
    have hf := fuseOne_inv w m r rank h1 h2
    simpa [processResults] using ih (fuseOne w m r rank) (rank + 1) hf.1 hf.2

theorem fusedScoresMap_inv (v kw : List SearchResult) (alpha : ℚ) :
    (∀ e ∈ fusedScoresMap v kw alpha, entryKeyOk e)
      ∧ ((fusedScoresMap v kw alpha).map (fun e => e.1)).Nodup := by
  have h1 := processResults_inv alpha v [] 0 (fun e he => by cases he) (by simp)
  exact processResults_inv (1 - alpha) kw (processResults alpha [] 0 v) 0 h1.1 h1.2

theorem mapScore_of_mem (m : List FusedEntry)
    (hnd : (m.map (fun e => e.1)).Nodup) (e : FusedEntry) (he : e ∈ m) :
    mapScore m e.1 = e.2.2 := by
  induction m with
  | nil => cases he
  | cons f fs ih =>
    rcases List.mem_cons.mp he with he | he
    · subst he
      simp [mapScore_cons]
    · have hne : ¬ f.1 = e.1 := by
        intro hc
        have : e.1 ∈ fs.map (fun e => e.1) := List.mem_map.mpr ⟨e, he, rfl⟩
        rw [List.map_cons, List.nodup_cons] at hnd
        exact hnd.1 (hc ▸ this)
      rw [mapScore_cons, if_neg hne]
      exact ih (by rw [List.map_cons, List.nodup_cons] at hnd; exact hnd.2) he

end HybridVectorStore

/-- C1: for every pair of ranked result lists and every alpha,
`reciprocalRankFusion` gives each returned candidate the fused score
`alpha * Σ 1/(60 + rank + 1)` over its occurrences in the vector list plus
`(1 - alpha) * Σ 1/(60 + rank + 1)` over its occurrences in the keyword
list, ranks counted from 0 within each list and candidates keyed by the
first 100 characters of the chunk text, both lists accumulating into one
map entry per key. -/
theorem rrf_fused_score_formula (v kw : List SearchResult) (alpha : ℚ) (limit : Nat)
    (r : SearchResult) (hr : r ∈ HybridVectorStore.reciprocalRankFusion v kw alpha limit) :
    r.score = alpha * HybridVectorStore.rrfContrib (HybridVectorStore.rrfKey r) 0 v
      + (1 - alpha) * HybridVectorStore.rrfContrib (HybridVectorStore.rrfKey r) 0 kw := by
  classical
  rcases List.mem_map.mp hr with ⟨item, hitem, hfr⟩
  have hsorted := List.mem_of_mem_take hitem
  have hperm := List.perm_insertionSort HybridVectorStore.scoreDescRel
    ((HybridVectorStore.fusedScoresMap v kw alpha).map (fun e => e.2))
  have hval : item ∈ (HybridVectorStore.fusedScoresMap v kw alpha).map (fun e => e.2) :=
    hperm.mem_iff.mp hsorted
  rcases List.mem_map.mp hval with ⟨e, heM, he2⟩
  have hinv := HybridVectorStore.fusedScoresMap_inv v kw alpha
  have hkey : e.1 = HybridVectorStore.rrfKey e.2.1 := hinv.1 e heM
  have hsc : HybridVectorStore.mapScore (HybridVectorStore.fusedScoresMap v kw alpha) e.1
      = e.2.2 := HybridVectorStore.mapScore_of_mem _ hinv.2 e heM
  have hrdoc : r.document = item.1.document := by
    rw [← hfr]
  have hrsc : r.score = item.2 := by
    rw [← hfr]
  have hkey' : HybridVectorStore.rrfKey r = e.1 := by
    rw [hkey, he2]
    simp [HybridVectorStore.rrfKey, hrdoc]
  rw [hrsc, ← he2, hkey',
    ← HybridVectorStore.mapScore_fusedScoresMap v kw alpha e.1]
  exact hsc.symm

/-- Witness for `rrf_fused_score_formula` at a concrete input: a single
vector hit, no keyword hits, `alpha = 2`, `limit = 1`. -/
theorem rrf_fused_score_formula_witness :
    ({ sampleVec with
        score := (2 : ℚ) * (1 / (HybridVectorStore.rrfK + ((0 : ℕ) : ℚ) + 1)) }
      ∈ HybridVectorStore.reciprocalRankFusion [sampleVec] [] 2 1)
    ∧ ({ sampleVec with
        score := (2 : ℚ) * (1 / (HybridVectorStore.rrfK + ((0 : ℕ) : ℚ) + 1)) }).score
      = 2 * HybridVectorStore.rrfContrib
          (HybridVectorStore.rrfKey { sampleVec with
            score := (2 : ℚ) * (1 / (HybridVectorStore.rrfK + ((0 : ℕ) : ℚ) + 1)) })
          0 [sampleVec]
        + (1 - 2) * HybridVectorStore.rrfContrib
          (HybridVectorStore.rrfKey { sampleVec with
            score := (2 : ℚ) * (1 / (HybridVectorStore.rrfK + ((0 : ℕ) : ℚ) + 1)) })
          0 [] :=
  ⟨by
      simp [HybridVectorStore.reciprocalRankFusion, HybridVectorStore.fusedScoresMap,
        HybridVectorStore.processResults, HybridVectorStore.fuseOne,
        HybridVectorStore.hasKey, List.insertionSort, List.orderedInsert],
    rrf_fused_score_formula [sampleVec] [] 2 1 _
      (by
        simp [HybridVectorStore.reciprocalRankFusion, HybridVectorStore.fusedScoresMap,
          HybridVectorStore.processResults, HybridVectorStore.fuseOne,
          HybridVectorStore.hasKey, List.insertionSort, List.orderedInsert])⟩

theorem rrf_pairwise (v kw : List SearchResult) (alpha : ℚ) (limit : Nat) :
    List.Pairwise (fun a b : SearchResult => b.score ≤ a.score)
      (HybridVectorStore.reciprocalRankFusion v kw alpha limit) := by
  have hs : List.Pairwise HybridVectorStore.scoreDescRel
      (((HybridVectorStore.fusedScoresMap v kw alpha).map (fun e => e.2)).insertionSort
        HybridVectorStore.scoreDescRel) :=
    List.sorted_insertionSort _ _
  have ht := List.Pairwise.sublist (List.take_sublist limit _) hs
  rw [HybridVectorStore.reciprocalRankFusion, List.pairwise_map]
  exact ht.imp (fun h => h)

theorem rrf_length_le (v kw : List SearchResult) (alpha : ℚ) (limit : Nat) :
    (HybridVectorStore.reciprocalRankFusion v kw alpha limit).length ≤ limit := by
  rw [HybridVectorStore.reciprocalRankFusion, List.length_map]
  simpa using List.length_take_le limit _

/-- C2: the fused list returned by `reciprocalRankFusion` (and hence by
`hybridSearch`, which returns it directly) is sorted descending by
accumulated fused score and has length at most `limit`; fusing two empty
lists returns the empty list. -/
theorem rrf_sorted_bounded_empty (v kw : List SearchResult) (alpha : ℚ) (limit : Nat)
    (vectorSearch keywordSearch : Nat → List SearchResult) :
    List.Pairwise (fun a b : SearchResult => b.score ≤ a.score)
        (HybridVectorStore.reciprocalRankFusion v kw alpha limit)
      ∧ (HybridVectorStore.reciprocalRankFusion v kw alpha limit).length ≤ limit
      ∧ List.Pairwise (fun a b : SearchResult => b.score ≤ a.score)
        (HybridVectorStore.hybridSearchModel vectorSearch keywordSearch limit alpha)
      ∧ (HybridVectorStore.hybridSearchModel vectorSearch keywordSearch limit alpha).length
          ≤ limit
      ∧ HybridVectorStore.reciprocalRankFusion [] [] alpha limit = [] :=
  ⟨rrf_pairwise v kw alpha limit, rrf_length_le v kw alpha limit,
    rrf_pairwise _ _ alpha limit, rrf_length_le _ _ alpha limit, by
      simp [HybridVectorStore.reciprocalRankFusion, HybridVectorStore.fusedScoresMap,
        HybridVectorStore.processResults]⟩

/-- C6 counterexample: with `alpha = 0` the returned ranking is not a
function of the keyword list alone — changing the vector list from one hit
to none changes the output (the vector-only hit is retained with fused
score `0`). -/
theorem rrf_alpha_zero_counterexample :
    HybridVectorStore.reciprocalRankFusion [sampleVec] [] 0 1
      ≠ HybridVectorStore.reciprocalRankFusion [] [] 0 1 := by
  simp [HybridVectorStore.reciprocalRankFusion, HybridVectorStore.fusedScoresMap,
    HybridVectorStore.processResults, HybridVectorStore.fuseOne,
    HybridVectorStore.hasKey, List.insertionSort, List.orderedInsert]

/-- C6 (amended): with `alpha = 0` every candidate's accumulated fused
score is independent of the vector list, and with `alpha = 1` independent
of the keyword list; the returned ranking may still change with the other
list, which contributes zero-scored entries (see the counterexample). -/
theorem rrf_degenerate_alpha_scores :
    (∀ (v v' kw : List SearchResult) (key : String),
        HybridVectorStore.mapScore (HybridVectorStore.fusedScoresMap v kw 0) key
          = HybridVectorStore.mapScore (HybridVectorStore.fusedScoresMap v' kw 0) key)
    ∧ (∀ (v kw kw' : List SearchResult) (key : String),
        HybridVectorStore.mapScore (HybridVectorStore.fusedScoresMap v kw 1) key
          = HybridVectorStore.mapScore (HybridVectorStore.fusedScoresMap v kw' 1) key) := by
  constructor
  · intro v v' kw key
    rw [HybridVectorStore.mapScore_fusedScoresMap, HybridVectorStore.mapScore_fusedScoresMap]
    ring
  · intro v kw kw' key
    rw [HybridVectorStore.mapScore_fusedScoresMap, HybridVectorStore.mapScore_fusedScoresMap]
    ring

/-- C5: when every rerank provider call throws, `rerank` and
`rerankWithMetadata` swallow the error and return the pre-rerank input
order truncated to its first `topK` elements, for every query, candidate
list and `topK`. -/
theorem reranker_error_fallback (provider : Reranker.RerankProvider)
    (query : String) (results : List SearchResult) (topK : Nat)
    (h : ∀ q docs n, provider q docs n = Except.error ()) :
    Reranker.rerank provider query results topK = results.take topK
      ∧ Reranker.rerankWithMetadata provider query results topK = results.take topK := by
  constructor
  · by_cases hr : results = []
    · subst hr
      simp [Reranker.rerank]
    · simp [Reranker.rerank, hr, h]
  · by_cases hr : results = []
    · subst hr
      simp [Reranker.rerankWithMetadata]
    · simp [Reranker.rerankWithMetadata, Reranker.rerank, hr, h]

/-- Witness for `reranker_error_fallback` at a concrete input. -/
theorem reranker_error_fallback_witness :
    (∀ q docs n, failingProvider q docs n = Except.error ())
      ∧ (Reranker.rerank failingProvider "q" [sampleVec, sampleKw] 1
            = [sampleVec, sampleKw].take 1
          ∧ Reranker.rerankWithMetadata failingProvider "q" [sampleVec, sampleKw] 1
            = [sampleVec, sampleKw].take 1) :=
  ⟨fun _ _ _ => rfl,
    reranker_error_fallback failingProvider "q" [sampleVec, sampleKw] 1
      (fun _ _ _ => rfl)⟩

/-- C3 (code divergence): the retrieval stage ignores `useHybridSearch` —
both branches issue the same `hybridSearch` call — so the comparison
endpoint's Vector Search Only configuration produces exactly the hybrid
(fused) retrieval, and its response is identical to the Hybrid Search
configuration's response for every store, reranker, generator and question. -/
theorem vector_only_config_is_hybrid (hybridSearch : String → Nat → List SearchResult)
    (rerank : String → List SearchResult → Nat → List SearchResult)
    (llm : String → String → String) (question : String) (r sr : Bool) :
    RAGPipeline.retrieveStage hybridSearch
        { useReranking := r, useHybridSearch := false, streamResponse := sr } question
      = hybridSearch question ragTopK
    ∧ RAGPipeline.query hybridSearch rerank llm question
        { useReranking := false, useHybridSearch := false }
      = RAGPipeline.query hybridSearch rerank llm question
        { useReranking := false, useHybridSearch := true } := by
  constructor
  · simp [RAGPipeline.retrieveStage]
  · simp [RAGPipeline.query, RAGPipeline.retrieveStage]

/-- C4 (amended): on the single-shot path, zero retrieval candidates make
`RAGPipeline.query` answer with the fixed no-results string and an empty
source list, without consulting the answer generator (the response is the
same for every generator). -/
theorem query_no_results_policy (hybridSearch : String → Nat → List SearchResult)
    (rerank : String → List SearchResult → Nat → List SearchResult)
    (llm llm' : String → String → String) (question : String) (opts : QueryOptions)
    (h : hybridSearch question ragTopK = []) :
    (RAGPipeline.query hybridSearch rerank llm question opts).answer
        = RAGPipeline.noInfoAnswer
      ∧ (RAGPipeline.query hybridSearch rerank llm question opts).sources = []
      ∧ RAGPipeline.query hybridSearch rerank llm question opts
          = RAGPipeline.query hybridSearch rerank llm' question opts := by
  have hret : RAGPipeline.retrieveStage hybridSearch opts question = [] := by
    simp [RAGPipeline.retrieveStage, h]
  refine ⟨?_, ?_, ?_⟩ <;>
    simp [RAGPipeline.query, hret, RAGPipeline.generateAnswer]

/-- Witness for `query_no_results_policy` at a concrete input. -/
theorem query_no_results_policy_witness :
    (emptyStore "q" ragTopK = [])
      ∧ ((RAGPipeline.query emptyStore idRerank MockLLM.generateAnswer "q" {}).answer
            = RAGPipeline.noInfoAnswer
          ∧ (RAGPipeline.query emptyStore idRerank MockLLM.generateAnswer "q" {}).sources
            = []
          ∧ RAGPipeline.query emptyStore idRerank MockLLM.generateAnswer "q" {}
            = RAGPipeline.query emptyStore idRerank (fun _ _ => "") "q" {}) :=
  ⟨rfl,
    query_no_results_policy emptyStore idRerank MockLLM.generateAnswer
      (fun _ _ => "") "q" {} rfl⟩

/-- C4 counterexample: the streaming path has no zero-candidate check —
with an empty store, `streamQuery` still invokes the answer generator on
the empty context and streams its fragments, which do not form the fixed
no-results answer. -/
theorem stream_no_results_counterexample :
    RAGPipeline.generationChunks
        (RAGPipeline.streamQuery emptyStore idRerank MockLLM.streamAnswer "q" {})
      = MockLLM.streamAnswer "q" ""
    ∧ String.join (MockLLM.streamAnswer "q" "") ≠ RAGPipeline.noInfoAnswer := by
  constructor
  · rfl
  · decide

/-- C7 (amended): the empty-question rejection lives in the HTTP handler,
not in the pipeline: `POST /api/query` returns HTTP 400 for an empty
question without invoking the pipeline (the result is the same whatever
pipeline function is installed). -/
theorem handler_rejects_empty_question
    (pipeline pipeline' : String → QueryOptions → RAGResponse)
    (opts opts' : QueryOptions) :
    apiQueryHandler pipeline "" opts = Except.error 400
      ∧ apiQueryHandler pipeline "" opts = apiQueryHandler pipeline' "" opts' := by
  constructor
  · simp [apiQueryHandler]
  · simp [apiQueryHandler]

/-- C7 counterexample: `RAGPipeline.query` performs no empty-question
check: with a one-hit store the empty question flows through retrieval and
generation, yielding a normal response with a cited source rather than a
rejection before the stages. -/
theorem query_empty_question_counterexample :
    (RAGPipeline.query oneDocStore idRerank MockLLM.generateAnswer ""
        { useReranking := false }).sources ≠ []
    ∧ (RAGPipeline.query oneDocStore idRerank MockLLM.generateAnswer ""
        { useReranking := false }).answer
      = MockLLM.generateAnswer "" (RAGPipeline.buildContext [sampleVec]) := by
  constructor
  · decide
  · rfl

theorem jsSplitSpaceAux_ne_nil (l : List Char) : jsSplitSpaceAux l ≠ [] := by
  induction l with
  | nil => simp [jsSplitSpaceAux]
  | cons c cs ih =>
    by_cases h : c = ' '
    · simp [jsSplitSpaceAux, h]
    · simp only [jsSplitSpaceAux, h, if_false]
      cases haux : jsSplitSpaceAux cs <;> simp

theorem flatten_fragmentsChar_split (l : List Char) :
    (fragmentsChar (jsSplitSpaceAux l)).flatten = l := by
  induction l with
  | nil => simp [jsSplitSpaceAux, fragmentsChar]
  | cons c cs ih =>
    by_cases h : c = ' '
    · subst h
      cases haux : jsSplitSpaceAux cs with
      | nil => exact absurd haux (jsSplitSpaceAux_ne_nil cs)
      | cons w ws =>
        rw [haux] at ih
        have hstep : jsSplitSpaceAux (' ' :: cs) = [] :: jsSplitSpaceAux cs := by
          simp [jsSplitSpaceAux]
        rw [hstep, haux]
        simp [fragmentsChar, List.flatten_cons, ih]
    · cases haux : jsSplitSpaceAux cs with
      | nil => exact absurd haux (jsSplitSpaceAux_ne_nil cs)
      | cons w ws =>
        rw [haux] at ih
        cases ws with
        | nil =>
          have ih' : w = cs := by simpa [fragmentsChar] using ih
          have hstep : jsSplitSpaceAux (c :: cs) = [c :: w] := by
            simp [jsSplitSpaceAux, h, haux]
          rw [hstep]
          simp [fragmentsChar, ih']
        | cons x xs =>
          have hstep : jsSplitSpaceAux (c :: cs) = (c :: w) :: x :: xs := by
            simp [jsSplitSpaceAux, h, haux]
          rw [hstep]
          simp only [fragmentsChar, List.flatten_cons] at ih ⊢
          rw [← ih]
          simp

theorem mapIdx_space_eq_fragmentsStr (ws : List String) :
    ws.mapIdx (fun i w => w ++ if i < ws.length - 1 then " " else "")
      = fragmentsStr ws := by
  induction ws with
  | nil => rfl
  | cons w ws ih =>
    cases ws with
    | nil => simp [List.mapIdx_cons, fragmentsStr]
    | cons x xs =>
      rw [List.mapIdx_cons, fragmentsStr]
      congr 1
      · simp
      · rw [← ih]
        congr 1
        funext i a
        congr 1
        simp

theorem fragmentsStr_map_mk (ws : List (List Char)) :
    fragmentsStr (ws.map String.mk) = (fragmentsChar ws).map String.mk := by
  induction ws with
  | nil => rfl
  | cons w ws ih =>
    cases ws with
    | nil => rfl
    | cons x xs =>
      simp only [List.map_cons, fragmentsStr, fragmentsChar]
      rw [← List.map_cons String.mk x xs]
      rw [ih]
      rfl

theorem join_map_mk_aux (ws : List (List Char)) (a : List Char) :
    (ws.map String.mk).foldl (fun r s => r ++ s) (String.mk a)
      = String.mk (a ++ ws.flatten) := by
  induction ws generalizing a with
  | nil => simp
  | cons w ws ih =>
    simp only [List.map_cons, List.foldl_cons, List.flatten_cons]
    have hmk : String.mk a ++ String.mk w = String.mk (a ++ w) := rfl
    rw [hmk, ih, List.append_assoc]

theorem join_map_mk (ws : List (List Char)) :
    String.join (ws.map String.mk) = String.mk ws.flatten := by
  have h := join_map_mk_aux ws []
  simpa [String.join] using h

/-- C9: the mock Answer Generator is deterministic per input — the same
question and context always yield the same hash-selected canned text, even
across different contexts — and the fragments yielded by `streamAnswer`
concatenate, in order, to exactly that text. -/
theorem mockllm_deterministic_stream (question c1 c2 : String) :
    MockLLM.generateAnswer question c1 = MockLLM.generateAnswer question c2
      ∧ MockLLM.streamAnswer question c1 = MockLLM.streamAnswer question c2
      ∧ String.join (MockLLM.streamAnswer question c1)
          = MockLLM.generateAnswer question c1 := by
  refine ⟨rfl, rfl, ?_⟩
  show String.join ((jsSplitSpace (MockLLM.generateAnswer question c1)).mapIdx
      (fun i w => w ++
        if i < (jsSplitSpace (MockLLM.generateAnswer question c1)).length - 1
        then " " else ""))
    = MockLLM.generateAnswer question c1
  rw [mapIdx_space_eq_fragmentsStr, jsSplitSpace, fragmentsStr_map_mk, join_map_mk,
    flatten_fragmentsChar_split]

theorem map_mapIdx_comp {α β γ : Type} (l : List α) (f : Nat → α → β) (g : β → γ) :
    (l.mapIdx f).map g = l.mapIdx (fun i a => g (f i a)) := by
  rw [List.mapIdx_eq_enum_map, List.mapIdx_eq_enum_map, List.map_map]
  rfl

theorem mapIdx_idx_only {α β : Type} (l : List α) (g : Nat → β) :
    l.mapIdx (fun i _ => g i) = (List.range l.length).map g := by
  rw [List.mapIdx_eq_enum_map, List.enum_eq_zip_range]
  have h1 : (Function.uncurry fun i (_ : α) => g i) = g ∘ Prod.fst := rfl
  rw [h1, ← List.map_map]
  rw [List.map_fst_zip (List.range l.length) l (by simp)]

theorem mapIdx_snd_only {α : Type} (l : List α) :
    l.mapIdx (fun _ a => a) = l := by
  rw [List.mapIdx_eq_enum_map]
  have h1 : (Function.uncurry fun (_ : Nat) (a : α) => a) = Prod.snd := rfl
  rw [h1, List.enum_map_snd]

theorem take_min_three {α : Type} (l : List α) :
    l.take (min 3 l.length) = l.take 3 := by
  by_cases h : l.length ≤ 3
  · rw [min_eq_right h, List.take_length, List.take_of_length_le h]
  · push_neg at h
    rw [min_eq_left (le_of_lt h)]

theorem foldl_no_match (content : String) (ws : List String) (a : ℚ)
    (h : ∀ w ∈ ws, jsIncludes content w = false) :
    ws.foldl (fun acc word => acc + (if jsIncludes content word then 1 else 0)) a = a := by
  induction ws generalizing a with
  | nil => rfl
  | cons w ws ih =>
    rw [List.foldl_cons, h w (by simp), if_neg (by simp)]
    rw [add_zero]
    exact ih a (fun w' hw' => h w' (by simp [hw']))


/-- C10: with at least one stored document, the mock store's hybrid search
never returns an empty list, for every query and limit; and when no stored
document's lowercased content includes any lowercased query word, it
returns the first `min(3, n)` stored documents with the synthetic
descending scores `0.5 - i * 0.1` (that is `0.5, 0.4, 0.3`), so the
pipeline's no-results answer is unreachable in mock mode with a non-empty
store. -/
theorem mock_hybrid_search_nonempty_fallback (documents : List Document)
    (query : String) (limit : Nat) (h : documents ≠ []) :
    MockVectorStore.hybridSearch documents query limit ≠ []
      ∧ ((∀ d ∈ documents, ∀ w ∈ jsSplitSpace query.toLower,
            jsIncludes d.pageContent.toLower w = false) →
          (MockVectorStore.hybridSearch documents query limit).map (fun r => r.document)
              = documents.take 3
            ∧ (MockVectorStore.hybridSearch documents query limit).map (fun r => r.score)
              = (List.range (min 3 documents.length)).map
                  (fun i : ℕ => (1 : ℚ)/2 - (i : ℚ) * (1/10))) := by
  have hlen : 0 < documents.length := List.length_pos.mpr h
  constructor
  · simp only [MockVectorStore.hybridSearch, if_neg h]
    split
    · intro hc
      have hlc := congrArg List.length hc
      simp only [List.length_mapIdx, List.length_take, List.length_nil] at hlc
      omega
    · rename_i hres
      exact hres
  · intro hnm
    have hfilter :
        ((documents.map (fun doc =>
            (doc, ((jsSplitSpace query.toLower).foldl (fun acc word =>
              acc + (if jsIncludes doc.pageContent.toLower word then 1 else 0)) 0) /
                ((jsSplitSpace query.toLower).length : ℚ)))).filter
            (fun r => decide (0 < r.2))) = [] := by
      rw [List.filter_eq_nil]
      intro p hp
      rcases List.mem_map.mp hp with ⟨doc, hdoc, hpd⟩
      rw [← hpd]
      simp only [decide_eq_true_eq]
      rw [foldl_no_match _ _ _ (fun w hw => hnm doc hdoc w hw)]
      simp
    have hsearch : MockVectorStore.hybridSearch documents query limit
        = (documents.take (min 3 documents.length)).mapIdx (fun i doc =>
            { document := doc, score := 1/2 - i * (1/10),
              vectorScore := some (1/2 - i * (1/10)) }) := by
      simp only [MockVectorStore.hybridSearch, if_neg h, hfilter]
      simp [List.insertionSort]
    rw [hsearch]
    constructor
    · rw [map_mapIdx_comp]
      have hproj : (fun (i : ℕ) (doc : Document) =>
          (({ document := doc, score := 1/2 - i * (1/10),
              vectorScore := some (1/2 - i * (1/10)) } : SearchResult)).document)
          = fun _ (doc : Document) => doc := rfl
      rw [hproj, mapIdx_snd_only, take_min_three]
    · rw [map_mapIdx_comp]
      have hproj : (fun (i : ℕ) (doc : Document) =>
          (({ document := doc, score := 1/2 - i * (1/10),
              vectorScore := some (1/2 - i * (1/10)) } : SearchResult)).score)
          = fun (i : ℕ) (_ : Document) => (1 : ℚ)/2 - (i : ℚ) * (1/10) := rfl
      rw [hproj, mapIdx_idx_only]
      congr 1
      rw [List.length_take]
      exact congrArg List.range (min_eq_left (min_le_right 3 documents.length))

/-- Witness for `mock_hybrid_search_nonempty_fallback` at a concrete input. -/
theorem mock_hybrid_search_nonempty_fallback_witness :
    ([sampleDoc] ≠ ([] : List Document))
      ∧ MockVectorStore.hybridSearch [sampleDoc] "zzz" 10 ≠ [] :=
  ⟨by decide,
    (mock_hybrid_search_nonempty_fallback [sampleDoc] "zzz" 10 (by decide)).1⟩

theorem enrich_mk_stamp (s : List String) (strategy : String) (ct : ContentType) :
    (enrich ct (s.mapIdx (fun index str =>
        ({ pageContent := str, chunkIndex := index,
           chunkingStrategy := strategy } : BaseChunk)))).map chunkStamp
      = (List.range s.length).map
          (fun i => (i, s.length, decide (0 < i), decide (i < s.length - 1))) := by
  simp only [enrich, List.length_mapIdx]
  rw [map_mapIdx_comp, List.mapIdx_mapIdx]
  have hfun : (fun i => (fun index c => chunkStamp
          ({ base := c, contentType := ct, hasPrevious := decide (0 < index),
             hasNext := decide (index < s.length - 1),
             totalChunks := s.length } : AdaptiveChunk)) i ∘
        (fun index str =>
          ({ pageContent := str, chunkIndex := index,
             chunkingStrategy := strategy } : BaseChunk)) i)
      = fun (i : ℕ) (_ : String) =>
          (i, s.length, decide (0 < i), decide (i < s.length - 1)) := rfl
  rw [hfun, mapIdx_idx_only]

theorem chooseChunks_stamp (ct : ContentType)
    (splitCode splitStructured splitNarrative : String → List String) (text : String) :
    (enrich ct (chooseChunks ct splitCode splitStructured splitNarrative text)).map
        chunkStamp
      = (List.range
            (chooseChunks ct splitCode splitStructured splitNarrative text).length).map
          (fun i =>
            (i, (chooseChunks ct splitCode splitStructured splitNarrative text).length,
              decide (0 < i),
              decide (i <
                (chooseChunks ct splitCode splitStructured splitNarrative
                    text).length - 1))) := by
  cases ct
  · simp only [chooseChunks, semanticChunk, List.length_mapIdx]
    exact enrich_mk_stamp (splitCode text) "semantic" ContentType.code
  · simp only [chooseChunks, tokenChunk, List.length_mapIdx]
    exact enrich_mk_stamp (splitStructured text) "token" ContentType.structured
  · simp only [chooseChunks, semanticChunk, List.length_mapIdx]
    exact enrich_mk_stamp (splitNarrative text) "semantic" ContentType.narrative

/-- C8: for every input text and every behavior of the collaborating text
splitters, the chunk list produced by `AdaptiveChunking.chunk` stamps
ordinal indices contiguous from 0 and strictly increasing (they are exactly
`0, 1, ..., n-1` in order), sets `totalChunks` to the list length on every
chunk, and sets `hasPrevious` exactly at positions `> 0` and `hasNext`
exactly at positions `< n - 1`. -/
theorem adaptive_chunk_enrichment (detect : String → ContentType)
    (splitCode splitStructured splitNarrative : String → List String) (text : String) :
    (adaptiveChunk detect splitCode splitStructured splitNarrative text).map chunkStamp
      = (List.range
            (adaptiveChunk detect splitCode splitStructured splitNarrative text).length).map
          (fun i =>
            (i, (adaptiveChunk detect splitCode splitStructured splitNarrative text).length,
              decide (0 < i),
              decide (i <
                (adaptiveChunk detect splitCode splitStructured splitNarrative
                    text).length - 1))) := by
  have hlen : (enrich (detect text)
        (chooseChunks (detect text) splitCode splitStructured splitNarrative
          text)).length
      = (chooseChunks (detect text) splitCode splitStructured splitNarrative
          text).length := by
    simp [enrich]
  simp only [adaptiveChunk]
  simp only [hlen]
  exact chooseChunks_stamp (detect text) splitCode splitStructured splitNarrative text
